import Mathlib

/-
Verification of the whisper queue worker (queue/worker.py).

The worker watches an inbox directory for audio files, transcribes each one
through an external engine, writes two output artifacts per job, and moves
the source file into a done or failed directory.  The filesystem is the only
state; we embed it as the structure FS below.  Operations that can raise
(the engine call, the two artifact writes, the two moves) are embedded in
the Except monad whose error value carries the filesystem state at raise
time, mirroring the fact that real filesystem effects persist across an
exception.  Environmental answers that the code observes (stat results,
engine outcome, whether a write or move succeeds) are supplied by a
JobOracle record, one per job.
-/

/-- ASCII uppercase of one character, as Python str.upper acts on the
ASCII range occurring in the recognized extensions. -/
def upChar (c : Char) : Char :=
  if 'a' ≤ c ∧ c ≤ 'z' then Char.ofNat (c.toNat - 32) else c

/-- ASCII uppercase of a string (Python str.upper on ASCII data). -/
def upStr (s : String) : String := ⟨s.data.map upChar⟩

/-- ASCII lowercase of one character. -/
def lowChar (c : Char) : Char :=
  if 'A' ≤ c ∧ c ≤ 'Z' then Char.ofNat (c.toNat + 32) else c

/-- ASCII lowercase of a string. -/
def lowStr (s : String) : String := ⟨s.data.map lowChar⟩

/-- Whether pat is a suffix of name.  A pathlib glob for the pattern
star-then-pat (as built by the f-string in get_pending_files) matches a
directory entry exactly when pat is a suffix of its name: pathlib matching
is fnmatch-based, so the star matches any, possibly empty, character
sequence and there is no special casing of leading dots. -/
def sfxOf (pat name : String) : Bool := pat.data.isSuffixOf name.data

/-- The characters stripped by Python str.strip(): exactly those for
which str.isspace() holds, i.e. the ASCII whitespace characters, the
field and record separators 1c-1f, NEL, NBSP, and the Unicode space
separators. -/
def isPyWs (c : Char) : Bool :=
  c == ' ' || c == '\t' || c == '\n' || c == '\r' || c == '\x0b' || c == '\x0c' ||
  c == '\x1c' || c == '\x1d' || c == '\x1e' || c == '\x1f' || c == '\x85' ||
  c == '\xa0' || c == '\u1680' || decide ('\u2000' ≤ c ∧ c ≤ '\u200a') ||
  c == '\u2028' || c == '\u2029' || c == '\u202f' || c == '\u205f' || c == '\u3000'

/-- Python str.strip(): drop whitespace from both ends. -/
def pyStrip (s : String) : String :=
  ⟨(((s.data.dropWhile isPyWs).reverse.dropWhile isPyWs).reverse : List Char)⟩

/-- Index of the last occurrence of a character in a list, if any. -/
def lastIdxOf (c : Char) : List Char → Option Nat
  | [] => none
  | x :: xs =>
    match lastIdxOf c xs with
    | some i => some (i + 1)
    | none => if x = c then some 0 else none

/-- Python pathlib Path.stem: the file name with its last suffix removed,
where a suffix is a final dot-segment whose dot is neither the first nor
the last character of the name. -/
def stemOf (name : String) : String :=
  let cs := name.data
  match lastIdxOf '.' cs with
  | none => name
  | some i => if 0 < i ∧ i + 1 < cs.length then ⟨cs.take i⟩ else name

/-- The base name save_result actually writes its two artifacts under:
output_base is OUTPUT_DIR / stem, and Path.with_suffix does not append to
it but replaces the last suffix of that stem itself (if it has one)
before attaching .txt or .json.  A multi-dot job x.y.mp3 (stem x.y)
therefore gets artifacts x.txt and x.json, not artifacts under x.y. -/
def artifactKey (name : String) : String := stemOf (stemOf name)

/-- AUDIO_EXTENSIONS from worker.py: the recognized audio extensions. -/
def AUDIO_EXTENSIONS : List String :=
  [".mp3", ".wav", ".flac", ".m4a", ".ogg", ".webm", ".mp4", ".mpeg", ".mpga"]

/-- The four observations is_file_ready makes on the candidate path:
existence and stat size before the settle wait, existence and stat size
after it.  A stat returning none models an OSError raised by that stat. -/
structure FsProbe where
  existsBefore : Bool
  statBefore : Option Nat
  existsAfter : Bool
  statAfter : Option Nat
deriving DecidableEq

/-- is_file_ready from worker.py: not ready if the path does not exist;
otherwise stat it, wait, re-check existence, stat again; ready iff the
size is unchanged and positive.  An OSError from either stat (the try
block spans both) yields False. -/
def is_file_ready (p : FsProbe) : Bool :=
  if !p.existsBefore then false
  else
    match p.statBefore with
    | none => false
    | some initialSize =>
      if !p.existsAfter then false
      else
        match p.statAfter with
        | none => false
        | some second => second == initialSize && decide (0 < initialSize)

/-- One time-aligned segment as returned by the engine (opaque payload,
copied verbatim into the structured record). -/
structure Seg where
  startT : Nat
  endT : Nat
  text : String
deriving DecidableEq

/-- The engine result dictionary: the text key is always present, the
language and segments keys may be absent (result.get). -/
structure TResult where
  text : String
  language : Option String
  segments : Option (List Seg)
deriving DecidableEq

/-- The structured record written by save_result as the json artifact. -/
structure JsonRec where
  text : String
  language : Option String
  segments : List Seg
  source_file : String
  processed_at : Nat
deriving DecidableEq

/-- The two move destinations used by process_file. -/
inductive Dest where
  | toDone
  | toFailed
deriving DecidableEq

/-- Observable events: each shutil.move call, whether or not it succeeds,
is recorded as a move attempt against its destination. -/
inductive Ev where
  | moveAttempt (d : Dest) (name : String)
deriving DecidableEq

/-- The filesystem state: the names present in the three job directories,
the last-modified times, the output artifacts keyed by stem, and the
trace of move attempts. -/
structure FS where
  inbox : List String
  doneDir : List String
  failedDir : List String
  mtime : String → Nat
  txt : String → Option String
  jsonOut : String → Option JsonRec
  trace : List Ev

/-- Environmental answers observed while processing one job: the readiness
probe, the engine outcome (none models a raised error), whether each
artifact write and each move succeeds, and the wall-clock time captured
by datetime.now() at write time. -/
structure JobOracle where
  probe : FsProbe
  engine : Option TResult
  saveTxtOk : Bool
  saveJsonOk : Bool
  moveDoneOk : Bool
  moveFailedOk : Bool
  now : Nat

/-- The union of the glob results over every extension and its uppercase
variant, in the order get_pending_files accumulates them. -/
def globFiles (fs : FS) : List String :=
  AUDIO_EXTENSIONS.foldl
    (fun acc ext =>
      acc ++ fs.inbox.filter (fun f => sfxOf ext f)
          ++ fs.inbox.filter (fun f => sfxOf (upStr ext) f)) []

/-- get_pending_files from worker.py: glob the inbox for every extension
in both casings, keep entries that still exist, and sort by ascending
last-modified time (Python sorted with the mtime key). -/
def get_pending_files (fs : FS) : List String :=
  let files := (globFiles fs).filter (fun f => fs.inbox.contains f)
  if files.isEmpty then []
  else files.insertionSort (fun a b => fs.mtime a ≤ fs.mtime b)

/-- The effect on a directory listing of a file arriving under a name:
a same-named entry is overwritten in place, otherwise the name is added. -/
def addFile (dir : List String) (n : String) : List String :=
  if dir.contains n then dir else dir ++ [n]

/-- The effect of shutil.move from inbox to the given destination. -/
def applyMove (fs : FS) (name : String) : Dest → FS
  | Dest.toDone =>
    { fs with inbox := fs.inbox.erase name, doneDir := addFile fs.doneDir name }
  | Dest.toFailed =>
    { fs with inbox := fs.inbox.erase name, failedDir := addFile fs.failedDir name }

/-- A shutil.move call: the attempt is recorded in the trace; on success
the file is relocated, on failure an exception carries the state. -/
def moveFile (fs : FS) (name : String) (d : Dest) (ok : Bool) : Except (String × FS) FS :=
  let fsA := { fs with trace := fs.trace ++ [Ev.moveAttempt d name] }
  if ok then Except.ok (applyMove fsA name d)
  else Except.error ("move failed", fsA)

/-- transcribe_file from worker.py: delegate to the engine; an engine
error surfaces as an exception. -/
def transcribe_file (fs : FS) (o : JobOracle) : Except (String × FS) TResult :=
  match o.engine with
  | some r => Except.ok r
  | none => Except.error ("engine error", fs)

/-- The write_text call for the plain-text artifact: on success the txt
map gains the content under the stem, on failure an exception carries
the unchanged state. -/
def writeTxtFile (fs : FS) (stem content : String) (ok : Bool) : Except (String × FS) FS :=
  if ok then
    Except.ok { fs with txt := fun s => if s = stem then some content else fs.txt s }
  else Except.error ("txt write error", fs)

/-- The write_text call for the structured record artifact. -/
def writeJsonFile (fs : FS) (stem : String) (record : JsonRec) (ok : Bool) :
    Except (String × FS) FS :=
  if ok then
    Except.ok { fs with jsonOut := fun s => if s = stem then some record else fs.jsonOut s }
  else Except.error ("json write error", fs)

/-- save_result from worker.py: form output_base from the job's stem,
then write the stripped text and the structured record (text, language,
segments with empty-list default, source file name, timestamp) at
output_base.with_suffix of .txt and .json.  with_suffix replaces any
last suffix the stem itself still has, so both artifacts are keyed by
artifactKey name, the stem of the stem. -/
def save_result (fs : FS) (name : String) (r : TResult) (o : JobOracle) :
    Except (String × FS) FS :=
  let output_base := stemOf name
  let key := stemOf output_base
  match writeTxtFile fs key (pyStrip r.text) o.saveTxtOk with
  | Except.error e => Except.error e
  | Except.ok fs1 =>
    writeJsonFile fs1 key
      { text := r.text, language := r.language, segments := r.segments.getD [],
        source_file := name, processed_at := o.now } o.saveJsonOk

/-- How process_file left the job. -/
inductive Outcome where
  | skippedMissing
  | skippedNotReady
  | movedDone
  | savedButVanished
  | movedFailed
  | stuckInbox
  | errorVanished
deriving DecidableEq

/-- The body of the try block in process_file: transcribe, save, and if
the file still exists move it to done. -/
def successPath (fs : FS) (name : String) (o : JobOracle) :
    Except (String × FS) (FS × Outcome) :=
  match transcribe_file fs o with
  | Except.error e => Except.error e
  | Except.ok r =>
    match save_result fs name r o with
    | Except.error e => Except.error e
    | Except.ok fs1 =>
      if fs1.inbox.contains name then
        match moveFile fs1 name Dest.toDone o.moveDoneOk with
        | Except.error e => Except.error e
        | Except.ok fs2 => Except.ok (fs2, Outcome.movedDone)
      else Except.ok (fs1, Outcome.savedButVanished)

/-- The except block in process_file: if the file still exists, try to
move it to failed; a failure of that secondary move is itself caught and
only logged, leaving the file in place. -/
def errorHandler (name : String) (o : JobOracle) (fsE : FS) :
    Except (String × FS) (FS × Outcome) :=
  if fsE.inbox.contains name then
    match moveFile fsE name Dest.toFailed o.moveFailedOk with
    | Except.ok fs2 => Except.ok (fs2, Outcome.movedFailed)
    | Except.error e => Except.ok (e.2, Outcome.stuckInbox)
  else Except.ok (fsE, Outcome.errorVanished)

/-- process_file from worker.py: skip if the file no longer exists or is
not ready; otherwise run the success path with the except block as
handler. -/
def process_file (fs : FS) (name : String) (o : JobOracle) :
    Except (String × FS) (FS × Outcome) :=
  if !(fs.inbox.contains name) then Except.ok (fs, Outcome.skippedMissing)
  else if !(is_file_ready o.probe) then Except.ok (fs, Outcome.skippedNotReady)
  else
    match successPath fs name o with
    | Except.ok out => Except.ok out
    | Except.error e => errorHandler name o e.2

/-- The for loop over one batch in run_worker, accumulating the per-job
outcomes in order.  An uncaught exception from process_file would abort
the whole batch. -/
def goPoll (ors : String → JobOracle) :
    List String → FS → List (String × Outcome) →
    Except (String × FS) (FS × List (String × Outcome))
  | [], fs, log => Except.ok (fs, log)
  | n :: rest, fs, log =>
    match process_file fs n (ors n) with
    | Except.error e => Except.error e
    | Except.ok (fs1, out) => goPoll ors rest fs1 (log ++ [(n, out)])

/-- One poll cycle of run_worker: scan the inbox and process every
pending file in the scanned order. -/
def pollCycle (fs : FS) (ors : String → JobOracle) :
    Except (String × FS) (FS × List (String × Outcome)) :=
  goPoll ors (get_pending_files fs) fs []

/-- Finitely many iterations of the while loop in run_worker, with a
fresh oracle assignment each cycle. -/
def runCycles : Nat → FS → (Nat → String → JobOracle) → Except (String × FS) FS
  | 0, fs, _ => Except.ok fs
  | Nat.succ k, fs, ors =>
    match pollCycle fs (ors 0) with
    | Except.error e => Except.error e
    | Except.ok (fs1, _) => runCycles k fs1 (fun i => ors (i + 1))

/-- How many of the three job directories hold the name (with
multiplicity of the listing model). -/
def locCount (fs : FS) (n : String) : Nat :=
  fs.inbox.count n + fs.doneDir.count n + fs.failedDir.count n

/-- Every name occupies at most one place across inbox, done and failed. -/
def UniqueLoc (fs : FS) : Prop := ∀ n, locCount fs n ≤ 1

/-- One step of the worker: some job is run through process_file. -/
def StepR (fs fs1 : FS) : Prop :=
  ∃ name o out, process_file fs name o = Except.ok (fs1, out)

/-- Reachability under worker steps. -/
def Reachable (fs0 fs : FS) : Prop := Relation.ReflTransGen StepR fs0 fs

/-- The code-side characterization of which names the scanner picks up:
the name ends with a recognized extension written either all-lowercase
or all-uppercase. -/
def matchesAudio (name : String) : Bool :=
  AUDIO_EXTENSIONS.any (fun ext => sfxOf ext name || sfxOf (upStr ext) name)

/-- Modelled from the claim's words, not from the code: the name's
extension equals a recognized extension under some mixture of letter
case, i.e. the lowercased name ends with a recognized extension. -/
def extMatchesAnyCase (name : String) : Bool :=
  AUDIO_EXTENSIONS.any (fun ext => sfxOf ext (lowStr name))

/-- Two states agree on the three job directories. -/
def eqDirs (a b : FS) : Prop :=
  a.inbox = b.inbox ∧ a.doneDir = b.doneDir ∧ a.failedDir = b.failedDir

/-- How many attempts to move nm into the failed directory a trace holds. -/
def cntF (l : List Ev) (nm : String) : Nat := l.count (Ev.moveAttempt Dest.toFailed nm)

/-- The three possible effects of one process_file call on the job
directories: leave them alone, move the job to done, or move it to
failed. -/
def stepShape (fs fs1 : FS) (name : String) : Prop :=
  eqDirs fs1 fs ∨
  (fs.inbox.contains name = true ∧ fs1.inbox = fs.inbox.erase name ∧
   fs1.doneDir = addFile fs.doneDir name ∧ fs1.failedDir = fs.failedDir) ∨
  (fs.inbox.contains name = true ∧ fs1.inbox = fs.inbox.erase name ∧
   fs1.doneDir = fs.doneDir ∧ fs1.failedDir = addFile fs.failedDir name)

/-- A readiness probe of a stable, non-empty file. -/
def probeReady : FsProbe :=
  { existsBefore := true, statBefore := some 4, existsAfter := true, statAfter := some 4 }

/-- A sample engine result. -/
def tResW : TResult :=
  { text := " hello world ", language := some "en",
    segments := some [{ startT := 0, endT := 2, text := "hello world" }] }

/-- A sample filesystem: one job in the inbox, nothing else. -/
def fsW : FS :=
  { inbox := ["c.flac"], doneDir := [], failedDir := [],
    mtime := fun _ => 0, txt := fun _ => none, jsonOut := fun _ => none, trace := [] }

/-- An oracle for a job whose engine call raises. -/
def oEngineFail : JobOracle :=
  { probe := probeReady, engine := none, saveTxtOk := true, saveJsonOk := true,
    moveDoneOk := true, moveFailedOk := true, now := 3 }

/-- An oracle for a job whose engine call raises and whose move into the
failed directory also fails. -/
def oEngineFailStuck : JobOracle := { oEngineFail with moveFailedOk := false }

/-- An oracle for a fully successful job. -/
def oSuccess : JobOracle := { oEngineFail with engine := some tResW }

/-- An oracle for a job that transcribes and saves, but whose move into
the done directory raises. -/
def oDoneMoveFail : JobOracle := { oSuccess with moveDoneOk := false }

/-- A filesystem holding the multi-dot job x.y.mp3 in its inbox next to
a pre-existing text artifact of the distinct job stem x. -/
def fsC7 : FS :=
  { inbox := ["x.y.mp3"], doneDir := [], failedDir := [],
    mtime := fun _ => 0,
    txt := fun s => if s = "x" then some "old transcript of x" else none,
    jsonOut := fun _ => none, trace := [] }

/-- A filesystem whose single inbox entry has a mixed-case extension. -/
def fsC5 : FS :=
  { inbox := ["a.Mp3"], doneDir := [], failedDir := [],
    mtime := fun _ => 0, txt := fun _ => none, jsonOut := fun _ => none, trace := [] }

/-- Claim C1: is_file_ready classifies a path as ready iff it exists
before the settle wait, still exists after it, both stats succeed with
the same size, and that size is strictly positive; consequently a
zero-byte file is never ready and a filesystem error during either stat
yields not ready. -/
theorem readiness_characterization (p : FsProbe) :
    is_file_ready p = true ↔
      (p.existsBefore = true ∧ p.existsAfter = true ∧
       ∃ n, p.statBefore = some n ∧ p.statAfter = some n ∧ 0 < n) := by
  obtain ⟨e1, s1, e2, s2⟩ := p
  cases e1 <;> cases e2 <;> cases s1 <;> cases s2 <;>
    simp [is_file_ready]

theorem save_result_ok (fs : FS) (name : String) (r : TResult) (o : JobOracle)
    (ht : o.saveTxtOk = true) (hj : o.saveJsonOk = true) :
    save_result fs name r o = Except.ok
      { fs with
        txt := fun s => if s = artifactKey name then some (pyStrip r.text) else fs.txt s,
        jsonOut := fun s =>
          if s = artifactKey name then
            some { text := r.text, language := r.language,
                   segments := r.segments.getD [], source_file := name,
                   processed_at := o.now }
          else fs.jsonOut s } := by
  unfold save_result writeTxtFile writeJsonFile artifactKey
  simp [ht, hj]

/-- Claim C7 (amended): for every successful transcription result and
job name, save_result persists exactly two artifacts keyed by the job's
stem with that stem's own last suffix replaced (with_suffix semantics;
for single-suffix names this is the stem itself): the plain-text file
holding the stripped transcript text, and the structured record holding
text, nullable language, the ordered segment list, the source file name
and the timestamp captured at write time; artifacts of any other key
are untouched, pre-existing artifacts of this key — even those written
for a different job whose base coincides — are overwritten, and no job
directory changes. -/
theorem result_writer_artifacts (fs : FS) (name : String) (r : TResult) (o : JobOracle)
    (ht : o.saveTxtOk = true) (hj : o.saveJsonOk = true) :
    ∃ fs1, save_result fs name r o = Except.ok fs1 ∧
      fs1.txt (artifactKey name) = some (pyStrip r.text) ∧
      fs1.jsonOut (artifactKey name) =
        some { text := r.text, language := r.language,
               segments := r.segments.getD [], source_file := name,
               processed_at := o.now } ∧
      (∀ s, s ≠ artifactKey name → fs1.txt s = fs.txt s ∧ fs1.jsonOut s = fs.jsonOut s) ∧
      fs1.inbox = fs.inbox ∧ fs1.doneDir = fs.doneDir ∧ fs1.failedDir = fs.failedDir := by
  refine ⟨_, save_result_ok fs name r o ht hj, by simp, by simp, ?_, rfl, rfl, rfl⟩
  intro s hs
  simp [hs]

theorem result_writer_artifacts_witness :
    (oSuccess.saveTxtOk = true ∧ oSuccess.saveJsonOk = true) ∧
    ∃ fs1, save_result fsW "c.flac" tResW oSuccess = Except.ok fs1 ∧
      fs1.txt (artifactKey "c.flac") = some (pyStrip tResW.text) ∧
      fs1.jsonOut (artifactKey "c.flac") =
        some { text := tResW.text, language := tResW.language,
               segments := tResW.segments.getD [], source_file := "c.flac",
               processed_at := oSuccess.now } ∧
      (∀ s, s ≠ artifactKey "c.flac" → fs1.txt s = fsW.txt s ∧ fs1.jsonOut s = fsW.jsonOut s) ∧
      fs1.inbox = fsW.inbox ∧ fs1.doneDir = fsW.doneDir ∧ fs1.failedDir = fsW.failedDir :=
  ⟨⟨rfl, rfl⟩, result_writer_artifacts fsW "c.flac" tResW oSuccess rfl rfl⟩

/-- Claim C7 counterexample: for the multi-dot job x.y.mp3, whose stem
is x.y, save_result leaves no artifact under the stem x.y; with_suffix
strips the stem's own .y suffix, so the text lands at the base x and
silently overwrites the pre-existing artifact that a different job with
stem x had there — refuting both the under-the-stem location and the
other-stems-untouched parts of the original claim. -/
theorem result_writer_wrong_stem :
    stemOf "x.y.mp3" = "x.y" ∧
    ∃ fs1, save_result fsC7 "x.y.mp3" tResW oSuccess = Except.ok fs1 ∧
      fs1.txt "x.y" = none ∧
      fs1.txt "x" = some (pyStrip tResW.text) ∧
      fsC7.txt "x" = some "old transcript of x" ∧
      fs1.txt "x" ≠ fsC7.txt "x" :=
  ⟨by decide,
   { fsC7 with
       txt := fun s => if s = artifactKey "x.y.mp3" then some (pyStrip tResW.text)
         else fsC7.txt s,
       jsonOut := fun s =>
         if s = artifactKey "x.y.mp3" then
           some { text := tResW.text, language := tResW.language,
                  segments := tResW.segments.getD [], source_file := "x.y.mp3",
                  processed_at := oSuccess.now }
         else fsC7.jsonOut s },
   save_result_ok fsC7 "x.y.mp3" tResW oSuccess rfl rfl,
   by decide, by decide, by decide, by decide⟩

/-- Claim C9: running save_result twice for the same job name and the
same transcription result (possibly at different wall-clock times)
writes a byte-identical plain-text artifact both times, the second run
overwriting the first. -/
theorem result_writer_idempotent (fs : FS) (name : String) (r : TResult) (o o2 : JobOracle)
    (ht : o.saveTxtOk = true) (hj : o.saveJsonOk = true)
    (ht2 : o2.saveTxtOk = true) (hj2 : o2.saveJsonOk = true) :
    ∃ fs1 fs2, save_result fs name r o = Except.ok fs1 ∧
      save_result fs1 name r o2 = Except.ok fs2 ∧
      fs1.txt (artifactKey name) = some (pyStrip r.text) ∧
      fs2.txt (artifactKey name) = some (pyStrip r.text) := by
  refine ⟨_, _, save_result_ok fs name r o ht hj, save_result_ok _ name r o2 ht2 hj2,
    by simp, by simp⟩

theorem result_writer_idempotent_witness :
    (oSuccess.saveTxtOk = true ∧ oSuccess.saveJsonOk = true ∧
     oEngineFail.saveTxtOk = true ∧ oEngineFail.saveJsonOk = true) ∧
    ∃ fs1 fs2, save_result fsW "c.flac" tResW oSuccess = Except.ok fs1 ∧
      save_result fs1 "c.flac" tResW oEngineFail = Except.ok fs2 ∧
      fs1.txt (artifactKey "c.flac") = some (pyStrip tResW.text) ∧
      fs2.txt (artifactKey "c.flac") = some (pyStrip tResW.text) :=
  ⟨⟨rfl, rfl, rfl, rfl⟩,
   result_writer_idempotent fsW "c.flac" tResW oSuccess oEngineFail rfl rfl rfl rfl⟩

theorem self_mem_addFile (dir : List String) (n : String) : n ∈ addFile dir n := by
  unfold addFile
  split
  · next h => simpa using h
  · exact List.mem_append_right _ (List.mem_singleton.mpr rfl)

theorem errorHandler_shape (name : String) (o : JobOracle) (fsE : FS) :
    ∃ fs1 out ex, errorHandler name o fsE = Except.ok (fs1, out) ∧
      fs1.trace = fsE.trace ++ ex ∧
      (∀ nm, cntF ex nm ≤ (if nm = name then 1 else 0)) ∧
      (eqDirs fs1 fsE ∨
       (fsE.inbox.contains name = true ∧ fs1.inbox = fsE.inbox.erase name ∧
        fs1.doneDir = fsE.doneDir ∧ fs1.failedDir = addFile fsE.failedDir name)) := by
  cases hc : fsE.inbox.contains name with
  | false =>
    have he : errorHandler name o fsE = Except.ok (fsE, Outcome.errorVanished) := by
      unfold errorHandler
      rw [hc]
      simp
    exact ⟨fsE, _, [], he, by simp, fun nm => by simp [cntF], Or.inl ⟨rfl, rfl, rfl⟩⟩
  | true =>
    cases hmf : o.moveFailedOk with
    | true =>
      have he : errorHandler name o fsE = Except.ok
          ({ fsE with
              inbox := fsE.inbox.erase name,
              failedDir := addFile fsE.failedDir name,
              trace := fsE.trace ++ [Ev.moveAttempt Dest.toFailed name] },
           Outcome.movedFailed) := by
        unfold errorHandler moveFile applyMove
        rw [hc, hmf]
        simp
      refine ⟨_, _, [Ev.moveAttempt Dest.toFailed name], he, rfl, ?_,
        Or.inr ⟨rfl, rfl, rfl, rfl⟩⟩
      intro nm
      by_cases hnm : nm = name <;> simp [cntF, hnm]
    | false =>
      have he : errorHandler name o fsE = Except.ok
          ({ fsE with trace := fsE.trace ++ [Ev.moveAttempt Dest.toFailed name] },
           Outcome.stuckInbox) := by
        unfold errorHandler moveFile
        rw [hc, hmf]
        simp
      refine ⟨_, _, [Ev.moveAttempt Dest.toFailed name], he, rfl, ?_,
        Or.inl ⟨rfl, rfl, rfl⟩⟩
      intro nm
      by_cases hnm : nm = name <;> simp [cntF, hnm]

theorem successPath_shape (fs : FS) (name : String) (o : JobOracle) :
    (∃ fs1 out ex, successPath fs name o = Except.ok (fs1, out) ∧
       fs1.trace = fs.trace ++ ex ∧ (∀ nm, cntF ex nm = 0) ∧
       (eqDirs fs1 fs ∨
        (fs.inbox.contains name = true ∧ fs1.inbox = fs.inbox.erase name ∧
         fs1.doneDir = addFile fs.doneDir name ∧ fs1.failedDir = fs.failedDir))) ∨
    (∃ msg fsE ex, successPath fs name o = Except.error (msg, fsE) ∧
       fsE.trace = fs.trace ++ ex ∧ (∀ nm, cntF ex nm = 0) ∧ eqDirs fsE fs) := by
  cases heng : o.engine with
  | none =>
    have he : successPath fs name o = Except.error ("engine error", fs) := by
      unfold successPath transcribe_file
      rw [heng]
    exact Or.inr ⟨_, fs, [], he, by simp, fun nm => by simp [cntF], rfl, rfl, rfl⟩
  | some r =>
    cases ht : o.saveTxtOk with
    | false =>
      have he : successPath fs name o = Except.error ("txt write error", fs) := by
        unfold successPath transcribe_file save_result writeTxtFile
        rw [heng]
        simp [ht]
      exact Or.inr ⟨_, fs, [], he, by simp, fun nm => by simp [cntF], rfl, rfl, rfl⟩
    | true =>
      cases hj : o.saveJsonOk with
      | false =>
        have he : successPath fs name o = Except.error ("json write error",
            { fs with
                txt := fun s => if s = artifactKey name then some (pyStrip r.text) else fs.txt s }) := by
          unfold successPath transcribe_file save_result writeTxtFile writeJsonFile artifactKey
          rw [heng]
          simp [ht, hj]
        exact Or.inr ⟨_, _, [], he, by simp, fun nm => by simp [cntF], rfl, rfl, rfl⟩
      | true =>
        cases hc : fs.inbox.contains name with
        | false =>
          have hc2 : name ∉ fs.inbox := by simpa using hc
          have he : successPath fs name o = Except.ok
              ({ fs with
                  txt := fun s => if s = artifactKey name then some (pyStrip r.text) else fs.txt s,
                  jsonOut := fun s =>
                    if s = artifactKey name then
                      some { text := r.text, language := r.language,
                             segments := r.segments.getD [], source_file := name,
                             processed_at := o.now }
                    else fs.jsonOut s },
                Outcome.savedButVanished) := by
            unfold successPath transcribe_file
            rw [heng]
            simp [save_result_ok fs name r o ht hj, hc2]
          exact Or.inl ⟨_, _, [], he, by simp, fun nm => by simp [cntF],
            Or.inl ⟨rfl, rfl, rfl⟩⟩
        | true =>
          have hc2 : name ∈ fs.inbox := by simpa using hc
          cases hmd : o.moveDoneOk with
          | true =>
            have he : successPath fs name o = Except.ok
                ({ fs with
                    inbox := fs.inbox.erase name,
                    doneDir := addFile fs.doneDir name,
                    txt := fun s => if s = artifactKey name then some (pyStrip r.text) else fs.txt s,
                    jsonOut := fun s =>
                      if s = artifactKey name then
                        some { text := r.text, language := r.language,
                               segments := r.segments.getD [], source_file := name,
                               processed_at := o.now }
                      else fs.jsonOut s,
                    trace := fs.trace ++ [Ev.moveAttempt Dest.toDone name] },
                  Outcome.movedDone) := by
              unfold successPath transcribe_file moveFile applyMove
              rw [heng]
              simp [save_result_ok fs name r o ht hj, hc2, hmd]
            exact Or.inl ⟨_, _, [Ev.moveAttempt Dest.toDone name], he, rfl,
              fun nm => by simp [cntF], Or.inr ⟨rfl, rfl, rfl, rfl⟩⟩
          | false =>
            have he : successPath fs name o = Except.error ("move failed",
                { fs with
                    txt := fun s => if s = artifactKey name then some (pyStrip r.text) else fs.txt s,
                    jsonOut := fun s =>
                      if s = artifactKey name then
                        some { text := r.text, language := r.language,
                               segments := r.segments.getD [], source_file := name,
                               processed_at := o.now }
                      else fs.jsonOut s,
                    trace := fs.trace ++ [Ev.moveAttempt Dest.toDone name] }) := by
              unfold successPath transcribe_file moveFile
              rw [heng]
              simp [save_result_ok fs name r o ht hj, hc2, hmd]
            exact Or.inr ⟨_, _, [Ev.moveAttempt Dest.toDone name], he, rfl,
              fun nm => by simp [cntF], rfl, rfl, rfl⟩

theorem cntF_append (a b : List Ev) (nm : String) :
    cntF (a ++ b) nm = cntF a nm + cntF b nm := List.count_append _ _ _

theorem process_file_shape (fs : FS) (name : String) (o : JobOracle) (fs1 : FS)
    (out : Outcome) (h : process_file fs name o = Except.ok (fs1, out)) :
    ∃ ex : List Ev,
      fs1.trace = fs.trace ++ ex ∧
      (∀ nm, cntF ex nm ≤ (if nm = name then 1 else 0)) ∧
      stepShape fs fs1 name := by
  unfold process_file at h
  cases hmem : fs.inbox.contains name with
  | false =>
    rw [hmem] at h
    simp at h
    obtain ⟨rfl, rfl⟩ := h
    exact ⟨[], by simp, fun nm => by simp [cntF], Or.inl ⟨rfl, rfl, rfl⟩⟩
  | true =>
    rw [hmem] at h
    cases hready : is_file_ready o.probe with
    | false =>
      rw [hready] at h
      simp at h
      obtain ⟨rfl, rfl⟩ := h
      exact ⟨[], by simp, fun nm => by simp [cntF], Or.inl ⟨rfl, rfl, rfl⟩⟩
    | true =>
      rw [hready] at h
      simp only [Bool.not_true, Bool.false_eq_true, if_false] at h
      rcases successPath_shape fs name o with
        ⟨fsA, outA, exA, heA, htrA, hcntA, hshA⟩ |
        ⟨msg, fsE, exA, heA, htrA, hcntA, hdE⟩
      · rw [heA] at h
        simp at h
        obtain ⟨rfl, rfl⟩ := h
        refine ⟨exA, htrA, fun nm => ?_, ?_⟩
        · rw [hcntA nm]
          exact Nat.zero_le _
        · rcases hshA with hd | ⟨_, h1, h2, h3⟩
          · exact Or.inl hd
          · exact Or.inr (Or.inl ⟨hmem, h1, h2, h3⟩)
      · rw [heA] at h
        simp only [] at h
        obtain ⟨fsB, outB, exB, heB, htrB, hcntB, hshB⟩ := errorHandler_shape name o fsE
        rw [heB] at h
        simp at h
        obtain ⟨rfl, rfl⟩ := h
        obtain ⟨hdi, hdd, hdf⟩ := hdE
        refine ⟨exA ++ exB, ?_, fun nm => ?_, ?_⟩
        · rw [htrB, htrA, List.append_assoc]
        · rw [cntF_append, hcntA nm]
          simpa using hcntB nm
        · rcases hshB with ⟨hb1, hb2, hb3⟩ | ⟨hbc, hb1, hb2, hb3⟩
          · exact Or.inl ⟨hb1.trans hdi, hb2.trans hdd, hb3.trans hdf⟩
          · refine Or.inr (Or.inr ⟨?_, ?_, ?_, ?_⟩)
            · rw [← hdi] at hmem ⊢
              exact hbc
            · rw [hb1, hdi]
            · rw [hb2, hdd]
            · rw [hb3, hdf]

theorem process_file_ok (fs : FS) (name : String) (o : JobOracle) :
    ∃ r, process_file fs name o = Except.ok r := by
  unfold process_file
  cases hmem : fs.inbox.contains name with
  | false => exact ⟨(fs, Outcome.skippedMissing), by simp⟩
  | true =>
    cases hready : is_file_ready o.probe with
    | false => exact ⟨(fs, Outcome.skippedNotReady), by simp⟩
    | true =>
      simp only [Bool.not_true, Bool.false_eq_true, if_false]
      rcases successPath_shape fs name o with
        ⟨fsA, outA, exA, heA, _⟩ | ⟨msg, fsE, exA, heA, _⟩
      · rw [heA]
        exact ⟨(fsA, outA), rfl⟩
      · rw [heA]
        simp only []
        obtain ⟨fsB, outB, exB, heB, _⟩ := errorHandler_shape name o fsE
        exact ⟨(fsB, outB), heB⟩

theorem goPoll_ok (ors : String → JobOracle) :
    ∀ (l : List String) (fs : FS) (log : List (String × Outcome)),
      ∃ fs1 log2, goPoll ors l fs log = Except.ok (fs1, log2) ∧
        log2.map Prod.fst = log.map Prod.fst ++ l := by
  intro l
  induction l with
  | nil =>
    intro fs log
    exact ⟨fs, log, rfl, by simp⟩
  | cons n rest ih =>
    intro fs log
    obtain ⟨⟨fsn, outn⟩, hn⟩ := process_file_ok fs n (ors n)
    obtain ⟨fs1, log2, h1, h2⟩ := ih fsn (log ++ [(n, outn)])
    refine ⟨fs1, log2, ?_, ?_⟩
    · unfold goPoll
      rw [hn]
      exact h1
    · rw [h2]
      simp

theorem goPoll_trace_bound (ors : String → JobOracle) (nm : String) :
    ∀ (l : List String) (fs : FS) (log : List (String × Outcome)) (fs1 : FS)
      (log2 : List (String × Outcome)),
      goPoll ors l fs log = Except.ok (fs1, log2) →
      cntF fs1.trace nm ≤ cntF fs.trace nm + l.count nm := by
  intro l
  induction l with
  | nil =>
    intro fs log fs1 log2 h
    unfold goPoll at h
    simp at h
    obtain ⟨rfl, rfl⟩ := h
    simp
  | cons n rest ih =>
    intro fs log fs1 log2 h
    unfold goPoll at h
    cases hp : process_file fs n (ors n) with
    | error e =>
      rw [hp] at h
      simp at h
    | ok p =>
      obtain ⟨fsn, outn⟩ := p
      rw [hp] at h
      simp only [] at h
      have hb := ih fsn (log ++ [(n, outn)]) fs1 log2 h
      obtain ⟨ex, htr, hcnt, _⟩ := process_file_shape fs n (ors n) fsn outn hp
      have h3 : cntF fsn.trace nm ≤ cntF fs.trace nm + (if nm = n then 1 else 0) := by
        rw [htr, cntF_append]
        exact Nat.add_le_add_left (hcnt nm) _
      have h4 : (n :: rest).count nm = rest.count nm + (if nm = n then 1 else 0) := by
        rw [List.count_cons]
        by_cases hx : nm = n
        · subst hx
          simp
        · have hx2 : (n == nm) = false := by
            simpa using Ne.symm hx
          simp [hx, hx2]
      rw [h4]
      omega

theorem runCycles_ok : ∀ (n : Nat) (fs : FS) (ors : Nat → String → JobOracle),
    ∃ fs1, runCycles n fs ors = Except.ok fs1 := by
  intro n
  induction n with
  | zero =>
    intro fs ors
    exact ⟨fs, rfl⟩
  | succ k ih =>
    intro fs ors
    obtain ⟨fs1, log2, h1, _⟩ := goPoll_ok (ors 0) (get_pending_files fs) fs []
    obtain ⟨fs2, h2⟩ := ih fs1 (fun i => ors (i + 1))
    refine ⟨fs2, ?_⟩
    simp only [runCycles, pollCycle, h1]
    exact h2

/-- Claim C4: every error that arises while processing one job is handled
inside that job's process_file call, which always returns normally; hence
one poll cycle runs to completion with one log entry per pending job in
order, and any number of poll cycles of the worker loop complete without
an error propagating out. -/
theorem per_job_fault_isolation (fs fsb : FS) (ors : String → JobOracle)
    (n : Nat) (orsN : Nat → String → JobOracle) :
    (∀ name o, ∃ r, process_file fsb name o = Except.ok r) ∧
    (∃ fs1 log, pollCycle fs ors = Except.ok (fs1, log) ∧
       log.map Prod.fst = get_pending_files fs) ∧
    (∃ fs2, runCycles n fs orsN = Except.ok fs2) := by
  refine ⟨fun name o => process_file_ok fsb name o, ?_, runCycles_ok n fs orsN⟩
  obtain ⟨fs1, log2, h1, h2⟩ := goPoll_ok ors (get_pending_files fs) fs []
  exact ⟨fs1, log2, h1, by simpa using h2⟩

/-- Claim C6: the scanner returns the eligible inbox entries sorted by
ascending last-modified time, and one poll cycle processes exactly that
list in exactly that order. -/
theorem scanner_fifo_order (fs : FS) (ors : String → JobOracle) :
    List.Sorted (fun a b => fs.mtime a ≤ fs.mtime b) (get_pending_files fs) ∧
    ∃ fs1 log, pollCycle fs ors = Except.ok (fs1, log) ∧
      log.map Prod.fst = get_pending_files fs := by
  constructor
  · simp only [get_pending_files]
    haveI ht : IsTotal String (fun a b => fs.mtime a ≤ fs.mtime b) :=
      ⟨fun a b => Nat.le_total _ _⟩
    haveI htr : IsTrans String (fun a b => fs.mtime a ≤ fs.mtime b) :=
      ⟨fun a b c hab hbc => Nat.le_trans hab hbc⟩
    split
    · exact List.sorted_nil
    · exact List.sorted_insertionSort _ _
  · obtain ⟨fs1, log2, h1, h2⟩ := goPoll_ok ors (get_pending_files fs) fs []
    exact ⟨fs1, log2, h1, by simpa using h2⟩

/-- Claim C3: when the engine call for a ready job raises, process_file
moves the job's file into the failed directory and creates no output
artifacts for it: the whole txt and json artifact maps are unchanged. -/
theorem engine_failure_routes_to_failed (fs : FS) (name : String) (o : JobOracle)
    (hmem : fs.inbox.contains name = true)
    (hready : is_file_ready o.probe = true)
    (heng : o.engine = none)
    (hmf : o.moveFailedOk = true) :
    ∃ fs1, process_file fs name o = Except.ok (fs1, Outcome.movedFailed) ∧
      fs1.inbox = fs.inbox.erase name ∧
      fs1.doneDir = fs.doneDir ∧
      fs1.failedDir = addFile fs.failedDir name ∧
      name ∈ fs1.failedDir ∧
      fs1.txt = fs.txt ∧ fs1.jsonOut = fs.jsonOut := by
  have hm2 : name ∈ fs.inbox := by simpa using hmem
  refine ⟨{ fs with
      inbox := fs.inbox.erase name,
      failedDir := addFile fs.failedDir name,
      trace := fs.trace ++ [Ev.moveAttempt Dest.toFailed name] }, ?_, rfl, rfl, rfl,
    self_mem_addFile _ _, rfl, rfl⟩
  unfold process_file successPath transcribe_file errorHandler moveFile applyMove
  rw [heng]
  simp [hmem, hready, hm2, hmf]

theorem engine_failure_routes_to_failed_witness :
    (fsW.inbox.contains "c.flac" = true ∧ is_file_ready oEngineFail.probe = true ∧
     oEngineFail.engine = none ∧ oEngineFail.moveFailedOk = true) ∧
    (∃ fs1, process_file fsW "c.flac" oEngineFail = Except.ok (fs1, Outcome.movedFailed) ∧
      fs1.inbox = fsW.inbox.erase "c.flac" ∧
      fs1.doneDir = fsW.doneDir ∧
      fs1.failedDir = addFile fsW.failedDir "c.flac" ∧
      "c.flac" ∈ fs1.failedDir ∧
      fs1.txt = fsW.txt ∧ fs1.jsonOut = fsW.jsonOut) :=
  ⟨⟨by decide, by decide, rfl, rfl⟩,
   engine_failure_routes_to_failed fsW "c.flac" oEngineFail (by decide) (by decide) rfl rfl⟩

/-- Claim C10: when transcription and both artifact writes succeed but
the move into the done directory raises, process_file routes the file
into the failed directory instead, so a file can sit in failed even
though its complete output artifacts were persisted. -/
theorem done_move_failure_routes_to_failed (fs : FS) (name : String) (o : JobOracle)
    (r : TResult)
    (hmem : fs.inbox.contains name = true)
    (hready : is_file_ready o.probe = true)
    (heng : o.engine = some r)
    (ht : o.saveTxtOk = true) (hj : o.saveJsonOk = true)
    (hmd : o.moveDoneOk = false) (hmf : o.moveFailedOk = true) :
    ∃ fs1, process_file fs name o = Except.ok (fs1, Outcome.movedFailed) ∧
      fs1.inbox = fs.inbox.erase name ∧
      fs1.doneDir = fs.doneDir ∧
      fs1.failedDir = addFile fs.failedDir name ∧
      name ∈ fs1.failedDir ∧
      fs1.txt (artifactKey name) = some (pyStrip r.text) ∧
      fs1.jsonOut (artifactKey name) =
        some { text := r.text, language := r.language,
               segments := r.segments.getD [], source_file := name,
               processed_at := o.now } := by
  have hm2 : name ∈ fs.inbox := by simpa using hmem
  refine ⟨{ fs with
      inbox := fs.inbox.erase name,
      failedDir := addFile fs.failedDir name,
      txt := fun s => if s = artifactKey name then some (pyStrip r.text) else fs.txt s,
      jsonOut := fun s =>
        if s = artifactKey name then
          some { text := r.text, language := r.language,
                 segments := r.segments.getD [], source_file := name,
                 processed_at := o.now }
        else fs.jsonOut s,
      trace := fs.trace ++ [Ev.moveAttempt Dest.toDone name, Ev.moveAttempt Dest.toFailed name] },
    ?_, rfl, rfl, rfl, self_mem_addFile _ _, by simp, by simp⟩
  unfold process_file successPath transcribe_file errorHandler moveFile applyMove
  rw [heng]
  simp [save_result_ok fs name r o ht hj, hmem, hready, hm2, hmd, hmf]

theorem done_move_failure_routes_to_failed_witness :
    (fsW.inbox.contains "c.flac" = true ∧ is_file_ready oDoneMoveFail.probe = true ∧
     oDoneMoveFail.engine = some tResW ∧ oDoneMoveFail.saveTxtOk = true ∧
     oDoneMoveFail.saveJsonOk = true ∧ oDoneMoveFail.moveDoneOk = false ∧
     oDoneMoveFail.moveFailedOk = true) ∧
    (∃ fs1, process_file fsW "c.flac" oDoneMoveFail = Except.ok (fs1, Outcome.movedFailed) ∧
      fs1.inbox = fsW.inbox.erase "c.flac" ∧
      fs1.doneDir = fsW.doneDir ∧
      fs1.failedDir = addFile fsW.failedDir "c.flac" ∧
      "c.flac" ∈ fs1.failedDir ∧
      fs1.txt (artifactKey "c.flac") = some (pyStrip tResW.text) ∧
      fs1.jsonOut (artifactKey "c.flac") =
        some { text := tResW.text, language := tResW.language,
               segments := tResW.segments.getD [], source_file := "c.flac",
               processed_at := oDoneMoveFail.now }) :=
  ⟨⟨by decide, by decide, rfl, rfl, rfl, rfl, rfl⟩,
   done_move_failure_routes_to_failed fsW "c.flac" oDoneMoveFail tResW
     (by decide) (by decide) rfl rfl rfl rfl rfl⟩

theorem successPath_error_of_fail (fs : FS) (name : String) (o : JobOracle)
    (hmem : fs.inbox.contains name = true)
    (hfail : o.engine = none ∨ o.saveTxtOk = false ∨ o.saveJsonOk = false ∨
      o.moveDoneOk = false) :
    ∃ msg fsE, successPath fs name o = Except.error (msg, fsE) ∧
      eqDirs fsE fs ∧ cntF fsE.trace name = cntF fs.trace name := by
  cases heng : o.engine with
  | none =>
    refine ⟨"engine error", fs, ?_, ⟨rfl, rfl, rfl⟩, rfl⟩
    unfold successPath transcribe_file
    rw [heng]
  | some r =>
    cases ht : o.saveTxtOk with
    | false =>
      refine ⟨"txt write error", fs, ?_, ⟨rfl, rfl, rfl⟩, rfl⟩
      unfold successPath transcribe_file save_result writeTxtFile
      rw [heng]
      simp [ht]
    | true =>
      cases hj : o.saveJsonOk with
      | false =>
        refine ⟨"json write error",
          { fs with
              txt := fun s => if s = artifactKey name then some (pyStrip r.text) else fs.txt s },
          ?_, ⟨rfl, rfl, rfl⟩, rfl⟩
        unfold successPath transcribe_file save_result writeTxtFile writeJsonFile artifactKey
        rw [heng]
        simp [ht, hj]
      | true =>
        have hmd : o.moveDoneOk = false := by
          rcases hfail with h | h | h | h
        
          · rw [heng] at h
            cases h
          · rw [ht] at h
            cases h
          · rw [hj] at h
            cases h
          · exact h
        have hm2 : name ∈ fs.inbox := by simpa using hmem
        refine ⟨"move failed",
          { fs with
              txt := fun s => if s = artifactKey name then some (pyStrip r.text) else fs.txt s,
              jsonOut := fun s =>
                if s = artifactKey name then
                  some { text := r.text, language := r.language,
                         segments := r.segments.getD [], source_file := name,
                         processed_at := o.now }
                else fs.jsonOut s,
              trace := fs.trace ++ [Ev.moveAttempt Dest.toDone name] },
          ?_, ⟨rfl, rfl, rfl⟩, ?_⟩
        · unfold successPath transcribe_file moveFile
          rw [heng]
          simp [save_result_ok fs name r o ht hj, hm2, hmd]
        · simp [cntF]

/-- Claim C8: on the failure path, when the secondary move into failed
itself fails, the job's file is left in place in the inbox, the
condition is reported through the stuckInbox outcome after exactly one
recorded move attempt, and within one poll cycle in which the job is
pending at most once the move into failed is attempted at most once. -/
theorem secondary_move_failure (fs : FS) (name : String) (o : JobOracle)
    (hmem : fs.inbox.contains name = true)
    (hready : is_file_ready o.probe = true)
    (hfail : o.engine = none ∨ o.saveTxtOk = false ∨ o.saveJsonOk = false ∨
      o.moveDoneOk = false)
    (hmf : o.moveFailedOk = false) :
    (∃ fs1, process_file fs name o = Except.ok (fs1, Outcome.stuckInbox) ∧
       fs1.inbox = fs.inbox ∧ fs1.doneDir = fs.doneDir ∧ fs1.failedDir = fs.failedDir ∧
       name ∈ fs1.inbox ∧ cntF fs1.trace name = cntF fs.trace name + 1) ∧
    (∀ ors, (get_pending_files fs).count name ≤ 1 →
       ∃ fs2 log, pollCycle fs ors = Except.ok (fs2, log) ∧
         cntF fs2.trace name ≤ cntF fs.trace name + 1) := by
  constructor
  · obtain ⟨msg, fsE, hsp, ⟨hdi, hdd, hdf⟩, hcn⟩ :=
      successPath_error_of_fail fs name o hmem hfail
    have hcE : fsE.inbox.contains name = true := by
      rw [hdi]
      exact hmem
    have he : process_file fs name o = Except.ok
        ({ fsE with trace := fsE.trace ++ [Ev.moveAttempt Dest.toFailed name] },
         Outcome.stuckInbox) := by
      unfold process_file
      rw [hmem, hready]
      simp only [Bool.not_true, Bool.false_eq_true, if_false]
      rw [hsp]
      simp only []
      unfold errorHandler moveFile
      rw [hcE, hmf]
      simp
    refine ⟨_, he, hdi, hdd, hdf, ?_, ?_⟩
    · show name ∈ fsE.inbox
      rw [hdi]
      simpa using hmem
    · show cntF (fsE.trace ++ [Ev.moveAttempt Dest.toFailed name]) name
        = cntF fs.trace name + 1
      rw [cntF_append, hcn]
      simp [cntF]
  · intro ors hpend
    obtain ⟨fs2, log2, h1, _⟩ := goPoll_ok ors (get_pending_files fs) fs []
    refine ⟨fs2, log2, h1, ?_⟩
    have hb := goPoll_trace_bound ors name (get_pending_files fs) fs [] fs2 log2 h1
    omega

theorem secondary_move_failure_witness :
    (fsW.inbox.contains "c.flac" = true ∧ is_file_ready oEngineFailStuck.probe = true ∧
     oEngineFailStuck.engine = none ∧ oEngineFailStuck.moveFailedOk = false) ∧
    ((∃ fs1, process_file fsW "c.flac" oEngineFailStuck =
        Except.ok (fs1, Outcome.stuckInbox) ∧
       fs1.inbox = fsW.inbox ∧ fs1.doneDir = fsW.doneDir ∧
       fs1.failedDir = fsW.failedDir ∧
       "c.flac" ∈ fs1.inbox ∧ cntF fs1.trace "c.flac" = cntF fsW.trace "c.flac" + 1) ∧
     (∀ ors, (get_pending_files fsW).count "c.flac" ≤ 1 →
        ∃ fs2 log, pollCycle fsW ors = Except.ok (fs2, log) ∧
          cntF fs2.trace "c.flac" ≤ cntF fsW.trace "c.flac" + 1)) :=
  ⟨⟨by decide, by decide, rfl, rfl⟩,
   secondary_move_failure fsW "c.flac" oEngineFailStuck (by decide) (by decide)
     (Or.inl rfl) rfl⟩

theorem mem_addFile_of_mem (dir : List String) (m n : String) (h : n ∈ dir) :
    n ∈ addFile dir m := by
  unfold addFile
  split
  · exact h
  · exact List.mem_append_left _ h

theorem count_addFile_self (dir : List String) (n : String) (hz : dir.count n = 0) :
    (addFile dir n).count n = 1 := by
  have hnm : n ∉ dir := List.count_eq_zero.mp hz
  have hc : dir.contains n = false := by
    rw [Bool.eq_false_iff]
    intro hcc
    exact hnm (by simpa using hcc)
  unfold addFile
  rw [hc]
  simp [List.count_append, hz]

theorem count_addFile_ne (dir : List String) (m n : String) (h : n ≠ m) :
    (addFile dir m).count n = dir.count n := by
  unfold addFile
  split
  · rfl
  · rw [List.count_append]
    rw [List.count_singleton]
    simp [Ne.symm h]

theorem step_dirs (fs fs1 : FS) (h : StepR fs fs1) :
    (∀ n, n ∈ fs1.inbox → n ∈ fs.inbox) ∧
    (∀ n, n ∈ fs.doneDir → n ∈ fs1.doneDir) ∧
    (∀ n, n ∈ fs.failedDir → n ∈ fs1.failedDir) ∧
    (UniqueLoc fs → ∀ n, locCount fs1 n = locCount fs n) := by
  obtain ⟨name, o, out, hp⟩ := h
  obtain ⟨ex, htr, hcnt, hsh⟩ := process_file_shape fs name o fs1 out hp
  rcases hsh with ⟨h1, h2, h3⟩ | ⟨hm, h1, h2, h3⟩ | ⟨hm, h1, h2, h3⟩
  · exact ⟨fun n hn => by rwa [h1] at hn, fun n hn => by rwa [h2],
      fun n hn => by rwa [h3], fun _ n => by unfold locCount; rw [h1, h2, h3]⟩
  · have hm2 : name ∈ fs.inbox := by simpa using hm
    refine ⟨?_, ?_, ?_, ?_⟩
    · intro n hn
      rw [h1] at hn
      exact List.mem_of_mem_erase hn
    · intro n hn
      rw [h2]
      exact mem_addFile_of_mem _ _ _ hn
    · intro n hn
      rwa [h3]
    · intro hu n
      unfold locCount
      rw [h1, h2, h3]
      by_cases hx : n = name
      · subst hx
        have hpos : 0 < fs.inbox.count n := List.count_pos_iff.mpr hm2
        have hu2 := hu n
        unfold locCount at hu2
        have hdz : fs.doneDir.count n = 0 := by omega
        rw [List.count_erase_self, count_addFile_self _ _ hdz]
        omega
      · rw [List.count_erase_of_ne hx, count_addFile_ne _ _ _ hx]
  · have hm2 : name ∈ fs.inbox := by simpa using hm
    refine ⟨?_, ?_, ?_, ?_⟩
    · intro n hn
      rw [h1] at hn
      exact List.mem_of_mem_erase hn
    · intro n hn
      rwa [h2]
    · intro n hn
      rw [h3]
      exact mem_addFile_of_mem _ _ _ hn
    · intro hu n
      unfold locCount
      rw [h1, h2, h3]
      by_cases hx : n = name
      · subst hx
        have hpos : 0 < fs.inbox.count n := List.count_pos_iff.mpr hm2
        have hu2 := hu n
        unfold locCount at hu2
        have hfz : fs.failedDir.count n = 0 := by omega
        rw [List.count_erase_self, count_addFile_self _ _ hfz]
        omega
      · rw [List.count_erase_of_ne hx, count_addFile_ne _ _ _ hx]

/-- Claim C2: from any state in which every job occupies exactly one
location, every reachable state of the worker's step relation keeps each
job's per-name location count unchanged (so each job still occupies
exactly one of inbox, done and failed), and every further step never
adds a name to the inbox, never removes one from done or failed, and
never deletes a file. -/
theorem worker_location_invariant (fs0 fs : FS) (h0 : UniqueLoc fs0)
    (hr : Reachable fs0 fs) :
    UniqueLoc fs ∧ (∀ n, locCount fs n = locCount fs0 n) ∧
    ∀ fs1, StepR fs fs1 →
      (∀ n, n ∈ fs1.inbox → n ∈ fs.inbox) ∧
      (∀ n, n ∈ fs.doneDir → n ∈ fs1.doneDir) ∧
      (∀ n, n ∈ fs.failedDir → n ∈ fs1.failedDir) ∧
      (∀ n, locCount fs1 n = locCount fs n) := by
  unfold Reachable at hr
  have main : UniqueLoc fs ∧ ∀ n, locCount fs n = locCount fs0 n := by
    induction hr with
    | refl => exact ⟨h0, fun n => rfl⟩
    | tail hab hbc ih =>
      obtain ⟨hu, hcount⟩ := ih
      obtain ⟨_, _, _, hc⟩ := step_dirs _ _ hbc
      have hc2 := hc hu
      refine ⟨fun n => ?_, fun n => (hc2 n).trans (hcount n)⟩
      rw [hc2 n]
      exact hu n
  refine ⟨main.1, main.2, fun fs1 hstep => ?_⟩
  obtain ⟨hi, hd, hf, hc⟩ := step_dirs fs fs1 hstep
  exact ⟨hi, hd, hf, hc main.1⟩

theorem uniqueLoc_fsW : UniqueLoc fsW := by
  intro n
  simp [locCount, fsW]
  simpa using List.count_le_length n ["c.flac"]

theorem worker_location_invariant_witness :
    (UniqueLoc fsW ∧ Reachable fsW fsW) ∧
    (UniqueLoc fsW ∧ (∀ n, locCount fsW n = locCount fsW n) ∧
     ∀ fs1, StepR fsW fs1 →
       (∀ n, n ∈ fs1.inbox → n ∈ fsW.inbox) ∧
       (∀ n, n ∈ fsW.doneDir → n ∈ fs1.doneDir) ∧
       (∀ n, n ∈ fsW.failedDir → n ∈ fs1.failedDir) ∧
       (∀ n, locCount fs1 n = locCount fsW n)) :=
  ⟨⟨uniqueLoc_fsW, Relation.ReflTransGen.refl⟩,
   worker_location_invariant fsW fsW uniqueLoc_fsW Relation.ReflTransGen.refl⟩

theorem mem_glob_foldl (fs : FS) (n : String) :
    ∀ (exts : List String) (acc : List String),
      (n ∈ exts.foldl
        (fun acc ext =>
          acc ++ fs.inbox.filter (fun f => sfxOf ext f)
              ++ fs.inbox.filter (fun f => sfxOf (upStr ext) f)) acc) ↔
      (n ∈ acc ∨ ∃ ext ∈ exts,
        (sfxOf ext n || sfxOf (upStr ext) n) = true ∧ n ∈ fs.inbox) := by
  intro exts
  induction exts with
  | nil =>
    intro acc
    simp
  | cons e rest ih =>
    intro acc
    rw [List.foldl_cons, ih]
    simp only [List.mem_append, List.mem_filter, List.mem_cons, Bool.or_eq_true]
    aesop

theorem mem_globFiles (fs : FS) (n : String) :
    n ∈ globFiles fs ↔ (matchesAudio n = true ∧ n ∈ fs.inbox) := by
  unfold globFiles matchesAudio
  rw [mem_glob_foldl]
  rw [List.any_eq_true]
  simp only [List.not_mem_nil, false_or, Bool.or_eq_true]
  constructor
  · rintro ⟨ext, hext, hp, hi⟩
    exact ⟨⟨ext, hext, hp⟩, hi⟩
  · rintro ⟨⟨ext, hext, hp⟩, hi⟩
    exact ⟨ext, hext, hp, hi⟩

/-- Claim C5 (amended): the scanner includes an inbox entry exactly when
its name ends with a recognized extension written either all-lowercase or
all-uppercase; a mixed-case extension is not matched, so matching is not
fully case-insensitive. -/
theorem scanner_extension_matching (fs : FS) (name : String) (hmem : name ∈ fs.inbox) :
    (name ∈ get_pending_files fs) ↔ matchesAudio name = true := by
  have hcont : fs.inbox.contains name = true := by simpa using hmem
  have hfiles : name ∈ (globFiles fs).filter (fun f => fs.inbox.contains f) ↔
      matchesAudio name = true := by
    rw [List.mem_filter, mem_globFiles]
    constructor
    · rintro ⟨⟨hm, _⟩, _⟩
      exact hm
    · intro hm
      exact ⟨⟨hm, hmem⟩, hcont⟩
  simp only [get_pending_files]
  split
  · next hempty =>
    rw [List.isEmpty_iff] at hempty
    rw [hempty] at hfiles
    simp only [List.not_mem_nil, false_iff] at hfiles
    simp only [List.not_mem_nil, false_iff]
    intro hm
    exact hfiles hm
  · next hempty =>
    rw [List.mem_insertionSort]
    exact hfiles

theorem scanner_extension_matching_witness :
    "c.flac" ∈ fsW.inbox ∧
    (("c.flac" ∈ get_pending_files fsW) ↔ matchesAudio "c.flac" = true) :=
  ⟨by decide, scanner_extension_matching fsW "c.flac" (by decide)⟩

/-- Claim C5 counterexample: the file a.Mp3 has the recognized extension
mp3 under a mixture of letter case and sits in the inbox, yet the
scanner returns an empty candidate list for that state, so matching is
not case-insensitive for arbitrary case mixtures. -/
theorem scanner_mixed_case_missed :
    extMatchesAnyCase "a.Mp3" = true ∧ "a.Mp3" ∈ fsC5.inbox ∧
    get_pending_files fsC5 = [] :=
  ⟨by decide, by decide, by decide⟩
